import Mathlib

/-!
Shallow embedding of the ayon-usd repository packaging script
(src/create_package.py) and of the client runtime bootstrapper
(src/client/ayon_usd/__init__.py), together with theorems settling the
frozen claims about this code.

Modelling conventions:
* Python byte strings (file contents) are lists of naturals.
* Hash algorithms (hashlib objects) are abstracted as functions from the
  absorbed byte list to the hex digest string; a hashlib object state is
  exactly the list of bytes absorbed so far, so hash_obj.update is list
  append and hexdigest applies the abstract digest function.
* Filesystem paths are lists of name components; os.path.join appends a
  component and os.path.sep.join is the identity on the component list.
* Regular expressions (re compiled patterns) are abstracted as boolean
  predicates on the single name string they are matched against, exactly
  as regex.search(name) is used by the script.
-/

/-! ## calculate_file_checksum (create_package.py lines 97-115) -/

/-- One iteration list of the loop
for chunk in iter(lambda: f.read(chunk_size), b""):
the fuel argument bounds the number of iterations; since every iteration
with a nonempty read consumes at least one byte, the length of the
content is enough fuel.  f.read(0) returns the empty byte string, which
is the sentinel of iter, so a zero chunk size yields no chunks at all. -/
def readChunksAux (chunkSize : Nat) : Nat → List Nat → List (List Nat)
  | _, [] => []
  | 0, _ :: _ => []
  | fuel + 1, x :: rest =>
      if chunkSize = 0 then []
      else (x :: rest.take (chunkSize - 1)) :: readChunksAux chunkSize fuel (rest.drop (chunkSize - 1))

/-- The list of chunks read from the file by calculate_file_checksum. -/
def readChunks (chunkSize : Nat) (content : List Nat) : List (List Nat) :=
  readChunksAux chunkSize content.length content

/-- calculate_file_checksum: the hash object absorbs the chunks in order
(hash_obj.update) and the hex digest of the absorbed byte sequence is
returned.  hexdigest abstracts the chosen hashlib algorithm. -/
def calculate_file_checksum (hexdigest : List Nat → String) (content : List Nat)
    (chunk_size : Nat) : String :=
  hexdigest ((readChunks chunk_size content).foldl (fun acc chunk => acc ++ chunk) [])

/-! ## safe_copy_file (create_package.py lines 142-158) -/

/-- Abstract filesystem errors raised by os.makedirs or shutil.copy2. -/
inductive FsError where
  | dirExists
  | permission
  | other
deriving DecidableEq, Repr

/-- contextlib.suppress(Exception): whatever error the wrapped call
raised is swallowed. -/
def suppressError (_e : Option FsError) : Option FsError := none

/-- safe_copy_file: if src_path == dst_path return immediately; otherwise
run os.makedirs(dst_dir) with every exception suppressed, then
shutil.copy2, whose error (if any) is the outcome of the call.
samePath models src_path == dst_path; mkdirsError and copyError are the
errors the two filesystem calls would raise (none means success). -/
def safe_copy_file (samePath : Bool) (mkdirsError copyError : Option FsError) :
    Option FsError :=
  if samePath then none
  else
    match suppressError mkdirsError with
    | some e => some e
    | none => copyError

/-! ## ZipFileLongPaths (create_package.py lines 118-139) -/

/-- platform.system().lower() == "windows" -/
def zip_is_windows (systemName : String) : Bool := systemName.toLower == "windows"

/-- The target-path transformation performed by
ZipFileLongPaths._extract_member before delegating to the base class:
on Windows the path is made absolute and given the extended-length
path marker, on every other platform it is passed through unchanged. -/
def zipFileLongPaths_extract_tpath (isWindows : Bool) (abspath : String → String)
    (tpath : String) : String :=
  if isWindows then
    let t := abspath tpath
    if t.startsWith "\\\\" then "\\\\?\\UNC\\" ++ t.drop 2
    else "\\\\?\\" ++ t
  else tpath

/-- Behaviour of a zip class: how an entry is written into the archive
state and how the target path of a member extraction is formed.  The
archive state and the writing primitive are abstract. -/
structure ZipBehavior where
  writeArchive : List (String × String) → String × String → List (String × String)
  extractTargetPath : String → String

/-- The standard zipfile.ZipFile: extraction uses the target path as
given. -/
def ZipFile (w : List (String × String) → String × String → List (String × String)) :
    ZipBehavior :=
  { writeArchive := w, extractTargetPath := fun t => t }

/-- ZipFileLongPaths: inherits the writing primitive unchanged and
overrides only the member-extraction target path. -/
def ZipFileLongPaths (w : List (String × String) → String × String → List (String × String))
    (isWindows : Bool) (abspath : String → String) : ZipBehavior :=
  { writeArchive := w,
    extractTargetPath := zipFileLongPaths_extract_tpath isWindows abspath }

/-! ## initialize_environment (client/ayon_usd/init file, lines 16-38)

The process environment is an association list from variable names to
values; os.environ assignment replaces any previous binding.  The root
returned by get_downloaded_usd_root is an opaque string parameter, as is
USD_ADDON_DIR and os.path.pathsep.  os.path.join is modelled with a
fixed separator. -/

/-- os.environ[k] = v -/
def setEnv (env : List (String × String)) (k v : String) : List (String × String) :=
  (k, v) :: env.filter (fun p => p.1 != k)

/-- os.environ.get(k) -/
def getEnvOpt (env : List (String × String)) (k : String) : Option String :=
  (env.find? (fun p => p.1 == k)).map (fun p => p.2)

/-- How os.getenv(k) renders inside an f-string: a missing variable
renders as the string None. -/
def getenvDisplay : Option String → String
  | some s => s
  | none => "None"

/-- os.path.join of two components, with a fixed separator. -/
def pjoin (a b : String) : String := a ++ "/" ++ b

/-- initialize_environment: appends the USD lib/python directory to
sys.path and performs the eight os.environ assignments of the source, in
order.  Returns the new sys.path and the new environment. -/
def initialize_environment (usdRoot addonDir pathsep : String)
    (sysPath : List String) (env : List (String × String)) :
    List String × List (String × String) :=
  let sysPath := sysPath ++ [pjoin (pjoin usdRoot "lib") "python"]
  let env := setEnv env "PXR_PLUGINPATH_NAME" addonDir
  let env := setEnv env "USD_ASSET_RESOLVER" ""
  let env := setEnv env "TF_DEBUG" "1"
  let env := setEnv env "PYTHONPATH" (pjoin (pjoin usdRoot "lib") "python")
  let env := setEnv env "PATH"
    (getenvDisplay (getEnvOpt env "PATH") ++ pathsep ++ pjoin usdRoot "bin")
  let env := setEnv env "AYONLOGGERLOGLVL" "WARN"
  let env := setEnv env "AYONLOGGERSFILELOGGING" "1"
  let env := setEnv env "AYONLOGGERSFILEPOS" ".log"
  (sysPath, env)

/-- The environment variable names assigned by initialize_environment. -/
def initializeEnvironmentKeys : List String :=
  ["PXR_PLUGINPATH_NAME", "USD_ASSET_RESOLVER", "TF_DEBUG", "PYTHONPATH",
   "PATH", "AYONLOGGERLOGLVL", "AYONLOGGERSFILELOGGING", "AYONLOGGERSFILEPOS"]

/-! ## download_usd_zip (create_package.py lines 273-320)

The downloads directory is an association list from file name to file
contents.  hashAlg maps an algorithm name and a byte list to the hex
digest (the hashlib algorithm family); remote maps a URL to the byte
contents the network returns for it.  Exceptions are modelled with
Except, the error carrying the message and the state at the raise. -/

/-- One platform entry of the static USD_SOURCES spec. -/
structure PlatformInfo where
  url : String
  checksum : String
  checksum_algorithm : String
deriving DecidableEq, Repr

/-- One record appended to zip_files_info. -/
structure ZipInfo where
  name : String
  filename : String
  checksum : String
  checksum_algorithm : String
  platform : String
deriving DecidableEq, Repr

/-- Character walk behind urlFilename: the segment after the last
slash, accumulated in reverse. -/
def lastSlashSegment : List Char → List Char → List Char
  | seg, [] => seg.reverse
  | _, '/' :: rest => lastSlashSegment [] rest
  | seg, c :: rest => lastSlashSegment (c :: seg) rest

/-- src_url.split on the slash character, last element. -/
def urlFilename (url : String) : String := String.mk (lastSlashSegment [] url.data)

/-- State threaded through download_usd_zip: the downloads directory,
the list of URLs actually fetched, and the accumulated zip_files_info. -/
structure DlState where
  files : List (String × List Nat)
  fetched : List String
  infos : List ZipInfo
deriving DecidableEq, Repr

/-- Assoc-list lookup in the downloads directory (zip_path.exists plus
reading the contents). -/
def dlLookup (files : List (String × List Nat)) (n : String) : Option (List Nat) :=
  (files.find? (fun p => p.1 == n)).map (fun p => p.2)

/-- os.remove(zip_path) -/
def dlRemove (files : List (String × List Nat)) (n : String) : List (String × List Nat) :=
  files.filter (fun p => p.1 != n)

/-- urllib.request.urlretrieve writes the fetched bytes to zip_path. -/
def dlStore (files : List (String × List Nat)) (n : String) (c : List Nat) :
    List (String × List Nat) :=
  (n, c) :: dlRemove files n

/-- The record built for one (version, platform) entry. -/
def mkZipInfo (addonName platformName : String) (info : PlatformInfo) : ZipInfo :=
  { name := addonName,
    filename := urlFilename info.url,
    checksum := info.checksum,
    checksum_algorithm := info.checksum_algorithm,
    platform := platformName }

/-- The fetch-and-verify tail of the loop body: urlretrieve, recompute
the checksum of the stored file with calculate_file_checksum (default
chunk size 10000), raise ValueError on mismatch. -/
def download_fetch (hashAlg : String → List Nat → String) (remote : String → List Nat)
    (info : PlatformInfo) (st : DlState) : Except (String × DlState) DlState :=
  let filename := urlFilename info.url
  let content := remote info.url
  let st := { st with files := dlStore st.files filename content,
                      fetched := st.fetched ++ [info.url] }
  let file_checksum :=
    calculate_file_checksum (hashAlg info.checksum_algorithm) content 10000
  if info.checksum == file_checksum then .ok st
  else .error ("USD zip checksum mismatch: " ++ file_checksum ++ " != " ++ info.checksum, st)

/-- The body of the inner loop of download_usd_zip for one
(platform_name, platform_info) pair: append the record, then skip,
delete-and-refetch, or fetch, as the cache dictates. -/
def download_one (hashAlg : String → List Nat → String) (remote : String → List Nat)
    (addonName platformName : String) (info : PlatformInfo) (st : DlState) :
    Except (String × DlState) DlState :=
  let filename := urlFilename info.url
  let st := { st with infos := st.infos ++ [mkZipInfo addonName platformName info] }
  match dlLookup st.files filename with
  | some content =>
      if info.checksum == calculate_file_checksum (hashAlg info.checksum_algorithm) content 10000 then
        .ok st
      else
        download_fetch hashAlg remote info { st with files := dlRemove st.files filename }
  | none => download_fetch hashAlg remote info st

/-- The inner loop over item_info.items(). -/
def download_platforms (hashAlg : String → List Nat → String) (remote : String → List Nat)
    (addonName : String) : List (String × PlatformInfo) → DlState →
    Except (String × DlState) DlState
  | [], st => .ok st
  | (platformName, info) :: rest, st =>
      (download_one hashAlg remote addonName platformName info st).bind
        (download_platforms hashAlg remote addonName rest)

/-- download_usd_zip: the outer loop over USD_SOURCES.items().  On
success the final state carries the full zip_files_info list returned by
the source function. -/
def download_usd_zip (hashAlg : String → List Nat → String) (remote : String → List Nat)
    (addonName : String) : List (String × List (String × PlatformInfo)) → DlState →
    Except (String × DlState) DlState
  | [], st => .ok st
  | (_, platforms) :: rest, st =>
      (download_platforms hashAlg remote addonName platforms st).bind
        (download_usd_zip hashAlg remote addonName rest)

/-- The record list the spec promises: one record per (version,
platform) entry of the source spec, in iteration order. -/
def flatRecords (addonName : String)
    (sources : List (String × List (String × PlatformInfo))) : List ZipInfo :=
  sources.flatMap (fun item => item.2.map (fun p => mkZipInfo addonName p.1 p.2))

/-! ## main and the output directory (create_package.py lines 212-270 and 323-444)

The output directory is modelled as the set of files (list of component
paths relative to output_dir) together with the set of directories that
have been created.  The downloads directory lives outside output_dir and
is carried separately, as in download_usd_zip.  The regenerated
version.py lives in the addon source tree, recorded by a flag. -/

/-- Whole state touched by main. -/
structure PkgState where
  dl : List (String × List Nat)
  fetched : List String
  outFiles : List (List String)
  outDirs : List (List String)
  clientVersionWritten : Bool
deriving DecidableEq, Repr

/-- Does path p lead path q, component by component?  (p is an initial
segment of q.) -/
def startsWithPath : List String → List String → Bool
  | [], _ => true
  | _ :: _, [] => false
  | a :: as, b :: bs => a == b && startsWithPath as bs

/-- os.path.isdir(d) under output_dir: the directory was created, or
some file lies strictly below it. -/
def dirExistsB (d : List String) (st : PkgState) : Bool :=
  st.outDirs.contains d
    || st.outFiles.any (fun f => startsWithPath d f && decide (d.length < f.length))

/-- os.path.exists(d) under output_dir: a directory or a file at d. -/
def pathExistsB (d : List String) (st : PkgState) : Bool :=
  dirExistsB d st || st.outFiles.contains d

/-- Every ancestor-or-self path created by os.makedirs(d). -/
def pathDirs (d : List String) : List (List String) :=
  (List.range d.length).map (fun i => d.take (i + 1))

/-- os.makedirs(d): creates d and any missing ancestors. -/
def mkdirs_step (d : List String) (st : PkgState) : PkgState :=
  { st with outDirs := st.outDirs ++ (pathDirs d).filter (fun p => !st.outDirs.contains p) }

/-- safe_copy_file inside the output tree: os.makedirs on the parent
directory (errors suppressed, so only missing directories are added)
followed by the copy itself. -/
def copyFileInto (dst : List String) (st : PkgState) : PkgState :=
  let st := mkdirs_step dst.dropLast st
  { st with outFiles := st.outFiles ++ [dst] }

/-- copy_server_content: every file found under the server directory is
copied to addon_output_dir/server/<relative path>.  serverFiles is the
list of relative paths produced by find_files_in_subdir on the server
tree of the addon source. -/
def copy_server_content (addonName addonVersion : String)
    (serverFiles : List (List String)) (st : PkgState) : PkgState :=
  serverFiles.foldl
    (fun s rel => copyFileInto ([addonName, addonVersion, "server"] ++ rel) s) st

/-- zip_client_side: return immediately when the addon source has no
client directory; otherwise create the private directory when missing
and write private/client.zip. -/
def zip_client_side (addonName addonVersion : String) (clientExists : Bool)
    (st : PkgState) : PkgState :=
  if clientExists then
    let privateDir := [addonName, addonVersion, "private"]
    let st := if pathExistsB privateDir st then st else mkdirs_step privateDir st
    { st with outFiles := st.outFiles ++ [privateDir ++ ["client.zip"]] }
  else st

/-- Name of the final distributable archive written into output_dir. -/
def server_zip_filename (addonName addonVersion : String) : String :=
  addonName ++ "-" ++ addonVersion ++ ".zip"

/-- create_server_package: writes output_dir/{name}-{version}.zip. -/
def create_server_package (addonName addonVersion : String) (st : PkgState) : PkgState :=
  { st with outFiles := st.outFiles ++ [[server_zip_filename addonName addonVersion]] }

/-- The purge step of main, exactly as the source has it: when
output_dir/{name}/{version} is a directory, shutil.rmtree(output_dir)
removes the whole output directory. -/
def purge_step (addonName addonVersion : String) (st : PkgState) : PkgState :=
  if dirExistsB [addonName, addonVersion] st then
    { st with outFiles := [], outDirs := [] }
  else st

/-- shutil.rmtree(addon_output_root): removes output_dir/{name} and
everything below it. -/
def rmtree_root (addonName : String) (st : PkgState) : PkgState :=
  { st with outFiles := st.outFiles.filter (fun f => !startsWithPath [addonName] f),
            outDirs := st.outDirs.filter (fun d => !startsWithPath [addonName] d) }

/-- _fill_client_version: opens client/{client dir}/version.py of the
addon source tree for writing and regenerates the version stamp.  The
open raises an uncaught FileNotFoundError when its parent directory
client/{client dir} does not exist; clientModuleExists models the
existence of that directory (it can only exist when the client
directory itself exists). -/
def _fill_client_version (clientModuleExists : Bool) (st : PkgState) :
    Except (String × PkgState) PkgState :=
  if clientModuleExists then .ok { st with clientVersionWritten := true }
  else .error ("FileNotFoundError: client version.py parent directory is missing", st)

/-- The layout-building phase of main after the version stamp: create
the version directory when missing, copy the server tree, create the
private directory when missing, copy the verified archives into it,
write files_info.json and zip the client side. -/
def main_build_layout (addonName addonVersion : String)
    (serverFiles : List (List String)) (clientExists : Bool)
    (files_info : List ZipInfo) (st : PkgState) : PkgState :=
  let addonOutputDir := [addonName, addonVersion]
  let st := if pathExistsB addonOutputDir st then st else mkdirs_step addonOutputDir st
  let st := copy_server_content addonName addonVersion serverFiles st
  let privateDir := [addonName, addonVersion, "private"]
  let st := if pathExistsB privateDir st then st else mkdirs_step privateDir st
  let st := files_info.foldl
    (fun s info => { s with
      outFiles := s.outFiles ++ [[addonName, addonVersion, "private", info.filename]] }) st
  let st := { st with
    outFiles := st.outFiles ++ [[addonName, addonVersion, "private", "files_info.json"]] }
  zip_client_side addonName addonVersion clientExists st

/-- main: download and verify, purge, regenerate version.py (which
aborts the run when the client module directory is missing), build the
output layout, optionally zip and optionally delete the sources.
serverFiles, clientExists (os.path.isdir of the client directory) and
clientModuleExists (existence of client/{client dir}) describe the
addon source tree; an uncaught exception carries the state at the
raise. -/
def create_package_main (hashAlg : String → List Nat → String) (remote : String → List Nat)
    (addonName addonVersion : String)
    (sources : List (String × List (String × PlatformInfo)))
    (serverFiles : List (List String)) (clientExists clientModuleExists : Bool)
    (skip_zip keep_sources : Bool) (st : PkgState) :
    Except (String × PkgState) PkgState :=
  match download_usd_zip hashAlg remote addonName sources
      { files := st.dl, fetched := st.fetched, infos := [] } with
  | .error (msg, d) => .error (msg, { st with dl := d.files, fetched := d.fetched })
  | .ok d =>
    let st := { st with dl := d.files, fetched := d.fetched }
    let st := purge_step addonName addonVersion st
    match _fill_client_version clientModuleExists st with
    | .error e => .error e
    | .ok st =>
      let st := main_build_layout addonName addonVersion serverFiles clientExists d.infos st
      if !skip_zip then
        let st := create_server_package addonName addonVersion st
        let st := if !keep_sources then rmtree_root addonName st else st
        .ok st
      else .ok st

/-- The files main lays out under output_dir/{name}/{version} before
the optional final zip step. -/
def layoutFiles (addonName addonVersion : String) (serverFiles : List (List String))
    (infos : List ZipInfo) (clientExists : Bool) : List (List String) :=
  serverFiles.map (fun rel => [addonName, addonVersion, "server"] ++ rel)
    ++ infos.map (fun i => [addonName, addonVersion, "private", i.filename])
    ++ [[addonName, addonVersion, "private", "files_info.json"]]
    ++ (if clientExists then [[addonName, addonVersion, "private", "client.zip"]] else [])

/-! ## find_files_in_subdir (create_package.py lines 161-209)

A directory on disk is a list of entries in os.listdir order; an entry
is a file or a subdirectory with its own listing.  A compiled regular
expression is abstracted as the boolean predicate regex.search applied
to a single name component. -/

/-- A directory entry: a plain file or a subdirectory. -/
inductive FsEntry where
  | file (name : String)
  | dir (name : String) (children : List FsEntry)

/-- Name of an entry. -/
def entryName : FsEntry → String
  | .file n => n
  | .dir n _ => n

/-- Names of the entries of one directory listing. -/
def entryNames (es : List FsEntry) : List String := es.map entryName

mutual

/-- Number of entries in a subtree, the termination measure of the
breadth-first walk. -/
def FsEntry.size : FsEntry → Nat
  | .file _ => 1
  | .dir _ cs => 1 + sizeEntries cs

/-- Total number of entries in a listing. -/
def sizeEntries : List FsEntry → Nat
  | [] => 0
  | e :: es => FsEntry.size e + sizeEntries es

end

mutual

/-- A real directory listing: sibling names are pairwise distinct, at
every level. -/
def wfEntry : FsEntry → Bool
  | .file _ => true
  | .dir _ cs => wfEntries cs

/-- Well-formedness of a listing. -/
def wfEntries : List FsEntry → Bool
  | [] => true
  | e :: es => !(entryNames es).contains (entryName e) && wfEntry e && wfEntries es

end

/-- An abstracted compiled pattern: regex.search on a name component. -/
abbrev NamePat := String → Bool

/-- _value_match_regexes: any(regex.search(value) for regex in regexes). -/
def _value_match_regexes (value : String) (regexes : List NamePat) : Bool :=
  regexes.any (fun r => r value)

/-- The (path, relative path) pairs appended to output while one
directory listing is scanned: kept files only, in listdir order.  Paths
are component lists; the absolute path is src_path followed by the
relative components. -/
def keptFilePairs (fpats : List NamePat) (srcPath parents : List String)
    (entries : List FsEntry) : List (List String × List String) :=
  entries.filterMap (fun e =>
    match e with
    | .file n =>
        if _value_match_regexes n fpats then none
        else some (srcPath ++ parents ++ [n], parents ++ [n])
    | .dir _ _ => none)

/-- The queue items appended while one directory listing is scanned:
kept subdirectories only, in listdir order. -/
def keptSubdirs (dpats : List NamePat) (parents : List String)
    (entries : List FsEntry) : List (List FsEntry × List String) :=
  entries.filterMap (fun e =>
    match e with
    | .dir n cs =>
        if _value_match_regexes n dpats then none
        else some (cs, parents ++ [n])
    | .file _ => none)

/-- Termination measure of the hierarchy queue. -/
def queueMeasure : List (List FsEntry × List String) → Nat
  | [] => 0
  | (es, _) :: q => sizeEntries es + 1 + queueMeasure q

/-- The while loop of find_files_in_subdir over the hierarchy deque:
popleft one (listing, parents) item, append its kept files to output and
its kept subdirectories to the right end of the queue. -/
def findFilesLoop (fpats dpats : List NamePat) (srcPath : List String)
    (queue : List (List FsEntry × List String)) : List (List String × List String) :=
  match queue with
  | [] => []
  | (entries, parents) :: rest =>
      keptFilePairs fpats srcPath parents entries ++
        findFilesLoop fpats dpats srcPath (rest ++ keptSubdirs dpats parents entries)
termination_by queueMeasure queue
decreasing_by
  have happ : ∀ a b : List (List FsEntry × List String),
      queueMeasure (a ++ b) = queueMeasure a + queueMeasure b := by
    intro a b
    induction a with
    | nil => simp [queueMeasure]
    | cons h t ih => cases h; simp [queueMeasure, ih]; omega
  have hle : ∀ (parents : List String) (entries : List FsEntry),
      queueMeasure (keptSubdirs dpats parents entries) ≤ sizeEntries entries := by
    intro parents entries
    induction entries with
    | nil => simp [keptSubdirs, queueMeasure, sizeEntries]
    | cons e es ih =>
        cases e with
        | file n =>
            simp only [keptSubdirs, List.filterMap_cons, sizeEntries, FsEntry.size]
            simp only [keptSubdirs] at ih
            omega
        | dir n cs =>
            simp only [keptSubdirs, List.filterMap_cons, sizeEntries, FsEntry.size]
            simp only [keptSubdirs] at ih
            by_cases hm : _value_match_regexes n dpats
            · simp [hm]; omega
            · simp [hm, queueMeasure]; omega
  have key : ∀ (rest : List (List FsEntry × List String)) (parents : List String)
      (entries : List FsEntry),
      queueMeasure (rest ++ keptSubdirs dpats parents entries) <
        sizeEntries entries + 1 + queueMeasure rest := by
    intro rest parents entries
    have h1 := hle parents entries
    have h2 := happ rest (keptSubdirs dpats parents entries)
    omega
  simp only [queueMeasure]
  exact key _ _ _

/-- find_files_in_subdir: the hierarchy queue starts with the root
listing and the empty parents list.  The compiled default pattern lists
of the script are abstract predicates like any others. -/
def find_files_in_subdir (srcPath : List String) (fpats dpats : List NamePat)
    (tree : List FsEntry) : List (List String × List String) :=
  findFilesLoop fpats dpats srcPath [(tree, [])]

/-- Depth-first collection of the relative paths of the files the walk
must keep, written from the claim: a file is kept when its own name
matches no file-exclusion pattern and no ancestor directory name below
the root matches a directory-exclusion pattern; an excluded directory is
not descended into. -/
def keptPaths (fpats dpats : List NamePat) (entries : List FsEntry) : List (List String) :=
  match entries with
  | [] => []
  | .file n :: es =>
      (if _value_match_regexes n fpats then [] else [[n]]) ++ keptPaths fpats dpats es
  | .dir n cs :: es =>
      (if _value_match_regexes n dpats then []
       else (keptPaths fpats dpats cs).map (fun p => n :: p))
        ++ keptPaths fpats dpats es
termination_by sizeEntries entries
decreasing_by
  all_goals simp [sizeEntries, FsEntry.size]
  all_goals omega

/-- The set of files described by the claim, as a relation on relative
component paths: the path descends through directories none of which
matches a directory-exclusion pattern and ends at a file whose name
matches no file-exclusion pattern. -/
inductive KeptAt (fpats dpats : List NamePat) : List FsEntry → List String → Prop where
  | file {es : List FsEntry} {n : String} :
      FsEntry.file n ∈ es → _value_match_regexes n fpats = false →
      KeptAt fpats dpats es [n]
  | dir {es : List FsEntry} {n : String} {cs : List FsEntry} {p : List String} :
      FsEntry.dir n cs ∈ es → _value_match_regexes n dpats = false →
      KeptAt fpats dpats cs p → KeptAt fpats dpats es (n :: p)

/-- The output block contributed by one queue item if the walk were run
from it alone, used to relate the breadth-first loop to keptPaths. -/
def expandItem (fpats dpats : List NamePat) (srcPath : List String)
    (item : List FsEntry × List String) : List (List String × List String) :=
  (keptPaths fpats dpats item.1).map (fun p => (srcPath ++ item.2 ++ p, item.2 ++ p))

/-! ## Concrete fixtures used by witnesses and counterexamples -/

/-- A small addon source tree: an excluded file, an excluded directory
with a file inside, and a sibling directory that contains another
excluded directory. -/
def c1Tree : List FsEntry :=
  [.file "keep.py", .file "skip.pyc",
   .dir "sub" [.file "a.py", .dir "bad" [.file "hidden.py"]],
   .dir "bad" [.file "x.py"]]

/-- File-exclusion fixture pattern. -/
def c1FilePats : List NamePat := [fun s => s == "skip.pyc"]

/-- Directory-exclusion fixture pattern. -/
def c1DirPats : List NamePat := [fun s => s == "bad"]

/-- An output directory holding two addon versions, the target version
1.0.0 and an unrelated version 0.9.0. -/
def c2State : PkgState :=
  { dl := [], fetched := [],
    outFiles := [["ayon_usd", "0.9.0", "server", "settings.py"],
                 ["ayon_usd", "1.0.0", "server", "init.py"]],
    outDirs := [["ayon_usd"], ["ayon_usd", "0.9.0"], ["ayon_usd", "1.0.0"]],
    clientVersionWritten := false }

/-- A fixture hash family: the digest of a byte list is its printed
form, so distinct contents have distinct digests. -/
def cHash : String → List Nat → String := fun _ l => toString l

/-- A network returning the bytes with digest matching cInfoGood. -/
def cRemoteGood : String → List Nat := fun _ => [7]

/-- A network returning corrupted bytes. -/
def cRemoteBad : String → List Nat := fun _ => [9]

/-- A source-spec entry whose checksum matches contents of byte 7. -/
def cInfoGood : PlatformInfo :=
  { url := "https://distribute.openpype.io/thirdparty/usd-24.03_linux_py39.zip",
    checksum := "[7]", checksum_algorithm := "sha256" }

/-- A one-entry source spec for the good entry. -/
def cSourcesGood : List (String × List (String × PlatformInfo)) :=
  [("24.03", [("linux", cInfoGood)])]

/-- A source-spec entry whose checksum never matches what cRemoteBad
serves. -/
def cInfoBad : PlatformInfo :=
  { url := "u.zip", checksum := "[7]", checksum_algorithm := "sha256" }

/-- A one-entry source spec for the bad entry. -/
def cSourcesBad : List (String × List (String × PlatformInfo)) :=
  [("24.03", [("linux", cInfoBad)])]

/-- A clean initial state: empty downloads cache and empty output. -/
def st0 : PkgState :=
  { dl := [], fetched := [], outFiles := [], outDirs := [], clientVersionWritten := false }

/-- A downloads directory already holding the good archive. -/
def d0 : DlState :=
  { files := [("usd-24.03_linux_py39.zip", [7])], fetched := [], infos := [] }

/-! # Theorems -/

/-! ## Claim C9: determinism and chunk independence of calculate_file_checksum -/

theorem foldl_append_flatten (L : List (List Nat)) :
    ∀ acc : List Nat, L.foldl (fun a c => a ++ c) acc = acc ++ L.flatten := by
  induction L with
  | nil => intro acc; simp
  | cons c L ih => intro acc; simp [List.foldl_cons, ih]

theorem readChunksAux_flatten (chunkSize : Nat) (hcs : 1 ≤ chunkSize) :
    ∀ (fuel : Nat) (l : List Nat), l.length ≤ fuel →
      (readChunksAux chunkSize fuel l).flatten = l := by
  intro fuel
  induction fuel with
  | zero =>
      intro l hl
      cases l with
      | nil => simp [readChunksAux]
      | cons x rest => simp at hl
  | succ n ih =>
      intro l hl
      cases l with
      | nil => simp [readChunksAux]
      | cons x rest =>
          have hne : chunkSize ≠ 0 := by omega
          simp only [readChunksAux, hne, if_false, List.flatten_cons]
          have hlen : (rest.drop (chunkSize - 1)).length ≤ n := by
            have h1 : rest.length ≤ n := by simpa using Nat.succ_le_succ_iff.mp hl
            have h2 := List.length_drop (chunkSize - 1) rest
            omega
          rw [ih _ hlen]
          simp [List.take_append_drop]

theorem calculate_file_checksum_eq_whole (hexdigest : List Nat → String)
    (content : List Nat) (chunk_size : Nat) (h : 1 ≤ chunk_size) :
    calculate_file_checksum hexdigest content chunk_size = hexdigest content := by
  unfold calculate_file_checksum readChunks
  rw [foldl_append_flatten, readChunksAux_flatten chunk_size h content.length content le_rfl]
  simp

/-- C9 (amended): for every abstract hash algorithm and file contents,
calculate_file_checksum is deterministic and, for every positive chunk
size, the digest equals the digest of the whole content hashed at once,
so it depends only on the contents and the algorithm, not on the
chunking. -/
theorem calculate_file_checksum_deterministic (hexdigest : List Nat → String)
    (content : List Nat) (cs cs' : Nat) (h : 1 ≤ cs) (h' : 1 ≤ cs') :
    calculate_file_checksum hexdigest content cs = calculate_file_checksum hexdigest content cs' ∧
    calculate_file_checksum hexdigest content cs = hexdigest content := by
  have e1 := calculate_file_checksum_eq_whole hexdigest content cs h
  have e2 := calculate_file_checksum_eq_whole hexdigest content cs' h'
  exact ⟨e1.trans e2.symm, e1⟩

theorem calculate_file_checksum_deterministic_witness :
    1 ≤ 2 ∧ 1 ≤ 5 ∧
    (calculate_file_checksum (fun l => toString l) [1, 2, 3] 2 =
        calculate_file_checksum (fun l => toString l) [1, 2, 3] 5 ∧
      calculate_file_checksum (fun l => toString l) [1, 2, 3] 2 =
        toString [(1 : Nat), 2, 3]) :=
  ⟨by decide, by decide,
    calculate_file_checksum_deterministic (fun l => toString l) [1, 2, 3] 2 5
      (by decide) (by decide)⟩

/-- C9 counterexample: with chunk size 0, f.read(0) returns the empty
byte string, which is the sentinel of the reading loop, so nothing is
hashed and the digest of a nonempty file differs from the digest of its
whole content. -/
theorem calculate_file_checksum_zero_chunk_cex :
    calculate_file_checksum (fun l => toString l.length) [1] 0 ≠
      toString ([(1 : Nat)] : List Nat).length := by decide

/-! ## Claim C6: error tolerance of safe_copy_file -/

/-- C6 (amended): when source and destination differ, every error of the
destination-directory creation is silently suppressed (not only the
directory-already-exists condition), and the outcome of safe_copy_file
is exactly the outcome of the copy itself, so any copy error propagates
uncaught. -/
theorem safe_copy_file_error_semantics (samePath : Bool)
    (mkdirsError copyError : Option FsError) :
    safe_copy_file samePath mkdirsError copyError = if samePath then none else copyError := by
  cases samePath <;> simp [safe_copy_file, suppressError]

/-- C6 counterexample: a permission error raised by the directory
creation is tolerated (the call returns success when the copy itself
succeeds), although it is not a directory-already-exists condition, so
directory-already-exists is not the only tolerated error. -/
theorem safe_copy_file_tolerates_mkdirs_permission :
    safe_copy_file false (some FsError.permission) none = none ∧
      FsError.permission ≠ FsError.dirExists := by decide

/-! ## Claim C8: the long-path wrapper touches only Windows extraction -/

/-- C8: ZipFileLongPaths writes archives exactly as the standard zip
primitive on every platform, and on every non-Windows platform the
member-extraction target path is passed through unchanged. -/
theorem zipFileLongPaths_extraction_only_windows
    (w : List (String × String) → String × String → List (String × String))
    (isWindows : Bool) (abspath : String → String) :
    (ZipFileLongPaths w isWindows abspath).writeArchive = (ZipFile w).writeArchive ∧
    (isWindows = false → ∀ tpath,
      (ZipFileLongPaths w isWindows abspath).extractTargetPath tpath =
        (ZipFile w).extractTargetPath tpath) := by
  refine ⟨rfl, ?_⟩
  intro h tpath
  simp [ZipFileLongPaths, ZipFile, zipFileLongPaths_extract_tpath, h]

theorem zipFileLongPaths_extraction_only_windows_witness :
    (ZipFileLongPaths (fun a _ => a) false id).extractTargetPath "member.txt" =
      (ZipFile (fun a _ => a)).extractTargetPath "member.txt" :=
  (zipFileLongPaths_extraction_only_windows (fun a _ => a) false id).2 rfl "member.txt"

/-! ## Claim C2: scope of the purge step -/

/-- C2: the purge step of main, triggered by the existence of the
target version directory, removes the entire output directory: a file
of another addon version, which does not lie under the target version
path, is removed as well.  This contradicts the version-scoped purge
the specification describes (and the log line of the source itself). -/
theorem purge_step_removes_other_versions :
    (purge_step "ayon_usd" "1.0.0" c2State).outFiles = [] ∧
    (purge_step "ayon_usd" "1.0.0" c2State).outDirs = [] ∧
    ["ayon_usd", "0.9.0", "server", "settings.py"] ∈ c2State.outFiles ∧
    startsWithPath ["ayon_usd", "1.0.0"] ["ayon_usd", "0.9.0", "server", "settings.py"] = false := by
  decide

/-! ## Claim C7: environment mutations of initialize_environment -/

theorem getEnvOpt_filter_ne (env : List (String × String)) (k k' : String)
    (h : k' ≠ k) : getEnvOpt (env.filter (fun p => p.1 != k)) k' = getEnvOpt env k' := by
  induction env with
  | nil => rfl
  | cons a t ih =>
      by_cases hk : a.1 = k
      · have h1 : (a.1 != k) = false := by simp [hk]
        have h2 : (a.1 == k') = false := by simp [hk]; exact fun e => (h e.symm).elim
        simp only [List.filter_cons, h1, if_false, getEnvOpt, List.find?_cons, h2]
        exact ih
      · have h1 : (a.1 != k) = true := by simp [hk]
        by_cases hk' : a.1 = k'
        · have h2 : (a.1 == k') = true := by simp [hk']
          simp only [List.filter_cons, h1, if_true, getEnvOpt, List.find?_cons, h2]
        · have h2 : (a.1 == k') = false := by simp [hk']
          simp only [List.filter_cons, h1, if_true, getEnvOpt, List.find?_cons, h2]
          exact ih

theorem getEnvOpt_setEnv_same (env : List (String × String)) (k v : String) :
    getEnvOpt (setEnv env k v) k = some v := by
  simp [getEnvOpt, setEnv, List.find?_cons]

theorem getEnvOpt_setEnv_other (env : List (String × String)) (k v k' : String)
    (h : k' ≠ k) : getEnvOpt (setEnv env k v) k' = getEnvOpt env k' := by
  have h2 : (k == k') = false := by simp; exact fun e => (h e.symm).elim
  simp only [setEnv, getEnvOpt, List.find?_cons, h2]
  exact getEnvOpt_filter_ne env k k' h

/-- C7 (amended): initialize_environment appends exactly one entry (the
lib/python directory of the USD root) to the module search path, sets the
resolver plugin path, clears USD_ASSET_RESOLVER, sets the debug flag and
the Python import path, appends the USD bin directory to PATH keeping
the previous PATH value as a prefix, sets exactly three logging
variables of the logger of the embedded framework, and modifies no
environment variable outside this fixed set of eight names. -/
theorem initialize_environment_effects (usdRoot addonDir pathsep : String)
    (sysPath : List String) (env : List (String × String)) :
    (initialize_environment usdRoot addonDir pathsep sysPath env).1 =
        sysPath ++ [pjoin (pjoin usdRoot "lib") "python"] ∧
    getEnvOpt (initialize_environment usdRoot addonDir pathsep sysPath env).2
        "PXR_PLUGINPATH_NAME" = some addonDir ∧
    getEnvOpt (initialize_environment usdRoot addonDir pathsep sysPath env).2
        "USD_ASSET_RESOLVER" = some "" ∧
    getEnvOpt (initialize_environment usdRoot addonDir pathsep sysPath env).2
        "TF_DEBUG" = some "1" ∧
    getEnvOpt (initialize_environment usdRoot addonDir pathsep sysPath env).2
        "PYTHONPATH" = some (pjoin (pjoin usdRoot "lib") "python") ∧
    getEnvOpt (initialize_environment usdRoot addonDir pathsep sysPath env).2
        "PATH" = some (getenvDisplay (getEnvOpt env "PATH") ++ pathsep ++ pjoin usdRoot "bin") ∧
    getEnvOpt (initialize_environment usdRoot addonDir pathsep sysPath env).2
        "AYONLOGGERLOGLVL" = some "WARN" ∧
    getEnvOpt (initialize_environment usdRoot addonDir pathsep sysPath env).2
        "AYONLOGGERSFILELOGGING" = some "1" ∧
    getEnvOpt (initialize_environment usdRoot addonDir pathsep sysPath env).2
        "AYONLOGGERSFILEPOS" = some ".log" ∧
    (∀ k, k ∉ initializeEnvironmentKeys →
      getEnvOpt (initialize_environment usdRoot addonDir pathsep sysPath env).2 k =
        getEnvOpt env k) := by
  unfold initialize_environment
  refine ⟨rfl, ?_, ?_, ?_, ?_, ?_, ?_, ?_, ?_, ?_⟩
  · rw [getEnvOpt_setEnv_other _ _ _ _ (by decide), getEnvOpt_setEnv_other _ _ _ _ (by decide),
      getEnvOpt_setEnv_other _ _ _ _ (by decide), getEnvOpt_setEnv_other _ _ _ _ (by decide),
      getEnvOpt_setEnv_other _ _ _ _ (by decide), getEnvOpt_setEnv_other _ _ _ _ (by decide),
      getEnvOpt_setEnv_other _ _ _ _ (by decide), getEnvOpt_setEnv_same]
  · rw [getEnvOpt_setEnv_other _ _ _ _ (by decide), getEnvOpt_setEnv_other _ _ _ _ (by decide),
      getEnvOpt_setEnv_other _ _ _ _ (by decide), getEnvOpt_setEnv_other _ _ _ _ (by decide),
      getEnvOpt_setEnv_other _ _ _ _ (by decide), getEnvOpt_setEnv_other _ _ _ _ (by decide),
      getEnvOpt_setEnv_same]
  · rw [getEnvOpt_setEnv_other _ _ _ _ (by decide), getEnvOpt_setEnv_other _ _ _ _ (by decide),
      getEnvOpt_setEnv_other _ _ _ _ (by decide), getEnvOpt_setEnv_other _ _ _ _ (by decide),
      getEnvOpt_setEnv_other _ _ _ _ (by decide), getEnvOpt_setEnv_same]
  · rw [getEnvOpt_setEnv_other _ _ _ _ (by decide), getEnvOpt_setEnv_other _ _ _ _ (by decide),
      getEnvOpt_setEnv_other _ _ _ _ (by decide), getEnvOpt_setEnv_other _ _ _ _ (by decide),
      getEnvOpt_setEnv_same]
  · rw [getEnvOpt_setEnv_other _ _ _ _ (by decide), getEnvOpt_setEnv_other _ _ _ _ (by decide),
      getEnvOpt_setEnv_other _ _ _ _ (by decide), getEnvOpt_setEnv_same,
      getEnvOpt_setEnv_other _ _ _ _ (by decide), getEnvOpt_setEnv_other _ _ _ _ (by decide),
      getEnvOpt_setEnv_other _ _ _ _ (by decide), getEnvOpt_setEnv_other _ _ _ _ (by decide)]
  · rw [getEnvOpt_setEnv_other _ _ _ _ (by decide), getEnvOpt_setEnv_other _ _ _ _ (by decide),
      getEnvOpt_setEnv_same]
  · rw [getEnvOpt_setEnv_other _ _ _ _ (by decide), getEnvOpt_setEnv_same]
  · rw [getEnvOpt_setEnv_same]
  · intro k hk
    simp only [initializeEnvironmentKeys, List.mem_cons, List.mem_singleton, not_or] at hk
    obtain ⟨h1, h2, h3, h4, h5, h6, h7, h8, -⟩ := hk
    rw [getEnvOpt_setEnv_other _ _ _ _ h8, getEnvOpt_setEnv_other _ _ _ _ h7,
      getEnvOpt_setEnv_other _ _ _ _ h6, getEnvOpt_setEnv_other _ _ _ _ h5,
      getEnvOpt_setEnv_other _ _ _ _ h4, getEnvOpt_setEnv_other _ _ _ _ h3,
      getEnvOpt_setEnv_other _ _ _ _ h2, getEnvOpt_setEnv_other _ _ _ _ h1]

theorem initialize_environment_effects_witness :
    ("HOME" ∉ initializeEnvironmentKeys) ∧
    getEnvOpt (initialize_environment "u" "a" ":" [] [("HOME", "h")]).2 "HOME" =
      getEnvOpt [("HOME", "h")] "HOME" :=
  ⟨by decide,
    ((initialize_environment_effects "u" "a" ":" [] [("HOME", "h")]).2.2.2.2.2.2.2.2.2)
      "HOME" (by decide)⟩

/-- C7 counterexample: starting from an empty environment, three
pairwise distinct logging variables of the logger of the embedded framework
are newly set by initialize_environment, so the procedure does not set
exactly two logging variables. -/
theorem initialize_environment_three_logger_vars :
    getEnvOpt (initialize_environment "u" "a" ":" [] []).2 "AYONLOGGERLOGLVL" = some "WARN" ∧
    getEnvOpt (initialize_environment "u" "a" ":" [] []).2 "AYONLOGGERSFILELOGGING" = some "1" ∧
    getEnvOpt (initialize_environment "u" "a" ":" [] []).2 "AYONLOGGERSFILEPOS" = some ".log" ∧
    getEnvOpt ([] : List (String × String)) "AYONLOGGERLOGLVL" = none ∧
    getEnvOpt ([] : List (String × String)) "AYONLOGGERSFILELOGGING" = none ∧
    getEnvOpt ([] : List (String × String)) "AYONLOGGERSFILEPOS" = none ∧
    ("AYONLOGGERLOGLVL" : String) ≠ "AYONLOGGERSFILELOGGING" ∧
    ("AYONLOGGERLOGLVL" : String) ≠ "AYONLOGGERSFILEPOS" ∧
    ("AYONLOGGERSFILELOGGING" : String) ≠ "AYONLOGGERSFILEPOS" := by
  decide

/-! ## Claim C4: records and cache behaviour of download_usd_zip -/

theorem download_fetch_infos_ok (hashAlg : String → List Nat → String)
    (remote : String → List Nat) (info : PlatformInfo) (st st' : DlState)
    (h : download_fetch hashAlg remote info st = .ok st') : st'.infos = st.infos := by
  unfold download_fetch at h
  by_cases hc : (info.checksum ==
      calculate_file_checksum (hashAlg info.checksum_algorithm) (remote info.url) 10000) = true
  · simp only [hc, if_true] at h
    cases h
    rfl
  · simp only [Bool.not_eq_true] at hc
    simp only [hc, Bool.false_eq_true, if_false] at h
    cases h

theorem download_one_infos_ok (hashAlg : String → List Nat → String)
    (remote : String → List Nat) (addonName platformName : String)
    (info : PlatformInfo) (st st' : DlState)
    (h : download_one hashAlg remote addonName platformName info st = .ok st') :
    st'.infos = st.infos ++ [mkZipInfo addonName platformName info] := by
  simp only [download_one] at h
  rcases hl : dlLookup st.files (urlFilename info.url) with _ | content
  · rw [hl] at h
    exact download_fetch_infos_ok _ _ _ _ _ h
  · rw [hl] at h
    by_cases hc : (info.checksum ==
        calculate_file_checksum (hashAlg info.checksum_algorithm) content 10000) = true
    · simp only [hc, if_true] at h
      cases h
      rfl
    · simp only [Bool.not_eq_true] at hc
      simp only [hc, Bool.false_eq_true, if_false] at h
      exact download_fetch_infos_ok _ _ _ _ _ h

theorem download_platforms_infos_ok (hashAlg : String → List Nat → String)
    (remote : String → List Nat) (addonName : String) :
    ∀ (ps : List (String × PlatformInfo)) (st st' : DlState),
    download_platforms hashAlg remote addonName ps st = .ok st' →
    st'.infos = st.infos ++ ps.map (fun p => mkZipInfo addonName p.1 p.2) := by
  intro ps
  induction ps with
  | nil =>
      intro st st' h
      cases h
      simp
  | cons p rest ih =>
      intro st st' h
      simp only [download_platforms] at h
      rcases h1 : download_one hashAlg remote addonName p.1 p.2 st with ⟨e⟩ | st1
      · rw [h1] at h; cases h
      · rw [h1] at h
        simp only [Except.bind] at h
        have e1 := download_one_infos_ok _ _ _ _ _ _ _ h1
        have e2 := ih st1 st' h
        rw [e2, e1]
        simp

theorem download_usd_zip_infos_ok (hashAlg : String → List Nat → String)
    (remote : String → List Nat) (addonName : String) :
    ∀ (sources : List (String × List (String × PlatformInfo))) (st st' : DlState),
    download_usd_zip hashAlg remote addonName sources st = .ok st' →
    st'.infos = st.infos ++ flatRecords addonName sources := by
  intro sources
  induction sources with
  | nil =>
      intro st st' h
      cases h
      simp [flatRecords]
  | cons item rest ih =>
      intro st st' h
      simp only [download_usd_zip] at h
      rcases h1 : download_platforms hashAlg remote addonName item.2 st with ⟨e⟩ | st1
      · rw [h1] at h; cases h
      · rw [h1] at h
        simp only [Except.bind] at h
        have e1 := download_platforms_infos_ok _ _ _ _ _ _ h1
        have e2 := ih st1 st' h
        rw [e2, e1]
        simp [flatRecords]

/-- C4: download_usd_zip returns one archive record per (version,
platform) entry of the source spec, in iteration order, regardless of
cache hits; an existing file whose digest equals the declared checksum
makes the entry skip the download with the downloads directory and the
fetch log untouched; an existing file with a different digest is
deleted and the archive is downloaded afresh. -/
theorem download_usd_zip_records (hashAlg : String → List Nat → String)
    (remote : String → List Nat) (addonName : String) :
    (∀ (sources : List (String × List (String × PlatformInfo))) (st st' : DlState),
      download_usd_zip hashAlg remote addonName sources st = .ok st' →
      st'.infos = st.infos ++ flatRecords addonName sources) ∧
    (∀ (platformName : String) (info : PlatformInfo) (st : DlState) (content : List Nat),
      dlLookup st.files (urlFilename info.url) = some content →
      (info.checksum ==
        calculate_file_checksum (hashAlg info.checksum_algorithm) content 10000) = true →
      download_one hashAlg remote addonName platformName info st =
        .ok { st with infos := st.infos ++ [mkZipInfo addonName platformName info] }) ∧
    (∀ (platformName : String) (info : PlatformInfo) (st : DlState) (content : List Nat),
      dlLookup st.files (urlFilename info.url) = some content →
      (info.checksum ==
        calculate_file_checksum (hashAlg info.checksum_algorithm) content 10000) = false →
      (info.checksum ==
        calculate_file_checksum (hashAlg info.checksum_algorithm) (remote info.url) 10000) = true →
      download_one hashAlg remote addonName platformName info st =
        .ok { st with
               files := dlStore (dlRemove st.files (urlFilename info.url))
                 (urlFilename info.url) (remote info.url),
               fetched := st.fetched ++ [info.url],
               infos := st.infos ++ [mkZipInfo addonName platformName info] }) := by
  refine ⟨download_usd_zip_infos_ok hashAlg remote addonName, ?_, ?_⟩
  · intro platformName info st content hl hc
    simp only [download_one, hl, hc, if_true]
  · intro platformName info st content hl hc hfetch
    simp only [download_one, hl, hc, Bool.false_eq_true, if_false, download_fetch,
      hfetch, if_true]

theorem download_usd_zip_records_witness :
    dlLookup d0.files (urlFilename cInfoGood.url) = some [7] ∧
    (cInfoGood.checksum ==
      calculate_file_checksum (cHash cInfoGood.checksum_algorithm) [7] 10000) = true ∧
    download_one cHash cRemoteGood "ayon_usd" "linux" cInfoGood d0 =
      .ok { d0 with infos := d0.infos ++ [mkZipInfo "ayon_usd" "linux" cInfoGood] } :=
  ⟨by decide, by decide,
    (download_usd_zip_records cHash cRemoteGood "ayon_usd").2.1 "linux" cInfoGood d0 [7]
      (by decide) (by decide)⟩

/-! ## Claim C3: checksum mismatch aborts before any package output -/

/-- C3: a fresh download whose digest differs from the declared checksum
makes download_one raise the fatal mismatch error, and when
download_usd_zip raises, create_package_main re-raises it immediately:
the resulting state differs from the initial one only in the downloads
directory and fetch log, so the output directory is untouched — in
particular the purge and every output write happen after the whole
download-and-verify step. -/
theorem main_aborts_before_output_on_mismatch
    (hashAlg : String → List Nat → String) (remote : String → List Nat)
    (addonName addonVersion : String)
    (sources : List (String × List (String × PlatformInfo)))
    (serverFiles : List (List String))
    (clientExists clientModuleExists skip_zip keep_sources : Bool)
    (st : PkgState) (msg : String) (d : DlState)
    (h : download_usd_zip hashAlg remote addonName sources
      { files := st.dl, fetched := st.fetched, infos := [] } = .error (msg, d)) :
    create_package_main hashAlg remote addonName addonVersion sources serverFiles
        clientExists clientModuleExists skip_zip keep_sources st =
      .error (msg, { st with dl := d.files, fetched := d.fetched }) ∧
    ({ st with dl := d.files, fetched := d.fetched } : PkgState).outFiles = st.outFiles ∧
    ({ st with dl := d.files, fetched := d.fetched } : PkgState).outDirs = st.outDirs ∧
    ({ st with dl := d.files, fetched := d.fetched } : PkgState).clientVersionWritten =
      st.clientVersionWritten ∧
    (∀ (platformName : String) (info : PlatformInfo) (dst : DlState),
      dlLookup dst.files (urlFilename info.url) = none →
      (info.checksum == calculate_file_checksum (hashAlg info.checksum_algorithm)
          (remote info.url) 10000) = false →
      download_one hashAlg remote addonName platformName info dst =
        .error ("USD zip checksum mismatch: "
            ++ calculate_file_checksum (hashAlg info.checksum_algorithm) (remote info.url) 10000
            ++ " != " ++ info.checksum,
          { dst with files := dlStore dst.files (urlFilename info.url) (remote info.url),
                     fetched := dst.fetched ++ [info.url],
                     infos := dst.infos ++ [mkZipInfo addonName platformName info] })) := by
  refine ⟨?_, rfl, rfl, rfl, ?_⟩
  · simp only [create_package_main, h]
  · intro platformName info dst hl hc
    simp only [download_one, hl, download_fetch, hc, Bool.false_eq_true, if_false]

theorem main_aborts_before_output_on_mismatch_witness :
    download_usd_zip cHash cRemoteBad "ayon_usd" cSourcesBad
        { files := st0.dl, fetched := st0.fetched, infos := [] } =
      .error ("USD zip checksum mismatch: [9] != [7]",
        { files := [("u.zip", [9])], fetched := ["u.zip"],
          infos := [mkZipInfo "ayon_usd" "linux" cInfoBad] }) ∧
    create_package_main cHash cRemoteBad "ayon_usd" "1.0.0" cSourcesBad [] true true false false st0 =
      .error ("USD zip checksum mismatch: [9] != [7]",
        { st0 with dl := [("u.zip", [9])], fetched := ["u.zip"] }) := by
  have hdl : download_usd_zip cHash cRemoteBad "ayon_usd" cSourcesBad
      { files := st0.dl, fetched := st0.fetched, infos := [] } =
    .error ("USD zip checksum mismatch: [9] != [7]",
      { files := [("u.zip", [9])], fetched := ["u.zip"],
        infos := [mkZipInfo "ayon_usd" "linux" cInfoBad] }) := by rfl
  exact ⟨hdl, (main_aborts_before_output_on_mismatch cHash cRemoteBad "ayon_usd" "1.0.0"
    cSourcesBad [] true true false false st0 _ _ hdl).1⟩

/-! ## Claim C5: flag behaviour of main -/

theorem mkdirs_step_outFiles (d : List String) (st : PkgState) :
    (mkdirs_step d st).outFiles = st.outFiles := rfl

theorem guard_mkdirs_outFiles (c : Bool) (d : List String) (st : PkgState) :
    (if c = true then st else mkdirs_step d st).outFiles = st.outFiles := by
  split <;> rfl

theorem copy_server_content_outFiles (n v : String) (sf : List (List String)) :
    ∀ st : PkgState, (copy_server_content n v sf st).outFiles
      = st.outFiles ++ sf.map (fun rel => [n, v, "server"] ++ rel) := by
  induction sf with
  | nil => intro st; simp [copy_server_content]
  | cons r rs ih =>
      intro st
      simp only [copy_server_content, List.foldl_cons] at ih ⊢
      rw [ih]
      simp [copyFileInto, mkdirs_step]

theorem copy_archives_outFiles (n v : String) (infos : List ZipInfo) :
    ∀ st : PkgState,
    (infos.foldl (fun s info => { s with
        outFiles := s.outFiles ++ [[n, v, "private", info.filename]] }) st).outFiles
      = st.outFiles ++ infos.map (fun i => [n, v, "private", i.filename]) := by
  induction infos with
  | nil => intro st; simp
  | cons i is ih =>
      intro st
      simp only [List.foldl_cons]
      rw [ih]
      simp

theorem zip_client_side_outFiles (n v : String) (ce : Bool) (st : PkgState) :
    (zip_client_side n v ce st).outFiles
      = st.outFiles ++ (if ce then [[n, v, "private", "client.zip"]] else []) := by
  cases ce with
  | false => simp [zip_client_side]
  | true =>
      simp only [zip_client_side, if_true]
      split
      · rfl
      · rfl

theorem purge_step_outFiles_of_empty (n v : String) (st : PkgState)
    (h : st.outFiles = []) : (purge_step n v st).outFiles = [] := by
  unfold purge_step
  split
  · rfl
  · exact h

theorem main_build_layout_outFiles (n v : String) (sf : List (List String))
    (ce : Bool) (infos : List ZipInfo) (st : PkgState) :
    (main_build_layout n v sf ce infos st).outFiles
      = st.outFiles ++ layoutFiles n v sf infos ce := by
  simp only [main_build_layout, zip_client_side_outFiles, copy_archives_outFiles,
    guard_mkdirs_outFiles, copy_server_content_outFiles, layoutFiles, List.append_assoc]

theorem server_zip_filename_ne (n v : String) :
    (n == server_zip_filename n v) = false := by
  have l1 : "-".length = 1 := rfl
  have l2 : ".zip".length = 4 := rfl
  have h : n ≠ server_zip_filename n v := by
    intro e
    have hlen := congrArg String.length e
    simp only [server_zip_filename, String.length_append, l1, l2] at hlen
    omega
  simp [h]

theorem layoutFiles_startsWith (n v : String) (sf : List (List String))
    (infos : List ZipInfo) (ce : Bool) :
    ∀ f ∈ layoutFiles n v sf infos ce, startsWithPath [n] f = true := by
  intro f hf
  simp only [layoutFiles, List.mem_append, List.mem_map, List.mem_singleton] at hf
  rcases hf with ((⟨rel, _, rfl⟩ | ⟨i, _, rfl⟩) | rfl) | hclient
  · simp [startsWithPath]
  · simp [startsWithPath]
  · simp [startsWithPath]
  · cases ce with
    | false => simp at hclient
    | true =>
        simp only [if_true, List.mem_singleton] at hclient
        subst hclient
        simp [startsWithPath]

theorem filter_not_under_append_zip (n v : String) (L : List (List String))
    (hL : ∀ f ∈ L, startsWithPath [n] f = true) :
    (L ++ [[server_zip_filename n v]]).filter (fun f => !startsWithPath [n] f)
      = [[server_zip_filename n v]] := by
  rw [List.filter_append]
  have h1 : L.filter (fun f => !startsWithPath [n] f) = [] := by
    rw [List.filter_eq_nil_iff]
    intro f hf
    simp [hL f hf]
  have h2 : startsWithPath [n] [server_zip_filename n v] = false := by
    simp [startsWithPath, server_zip_filename_ne n v]
  simp [h1, h2]

/-- C5: starting from an empty output directory, on an addon source
whose client module directory exists (so the version-stamp regeneration
of _fill_client_version succeeds), after a successful download step:
with skip_zip no distributable archive is produced and the
version-directory layout is exactly the built layout; with neither flag
the archive is produced and every file under the addon name directory
is removed afterwards, leaving only the archive; with keep_sources the
archive is produced and the layout remains. -/
theorem main_flag_behaviour (hashAlg : String → List Nat → String)
    (remote : String → List Nat) (n v : String)
    (sources : List (String × List (String × PlatformInfo)))
    (sf : List (List String)) (ce : Bool) (st : PkgState) (d : DlState)
    (h0 : st.outFiles = [])
    (hdl : download_usd_zip hashAlg remote n sources
      { files := st.dl, fetched := st.fetched, infos := [] } = .ok d) :
    (∀ keep, ∃ s1,
      create_package_main hashAlg remote n v sources sf ce true true keep st = .ok s1 ∧
      s1.outFiles = layoutFiles n v sf d.infos ce ∧
      [server_zip_filename n v] ∉ s1.outFiles) ∧
    (∃ s2, create_package_main hashAlg remote n v sources sf ce true false false st = .ok s2 ∧
      s2.outFiles = [[server_zip_filename n v]]) ∧
    (∃ s3, create_package_main hashAlg remote n v sources sf ce true false true st = .ok s3 ∧
      s3.outFiles = layoutFiles n v sf d.infos ce ++ [[server_zip_filename n v]]) := by
  have hpre : (main_build_layout n v sf ce d.infos
      { purge_step n v { st with dl := d.files, fetched := d.fetched } with
        clientVersionWritten := true }).outFiles
      = layoutFiles n v sf d.infos ce := by
    rw [main_build_layout_outFiles]
    have hp := purge_step_outFiles_of_empty n v
      { st with dl := d.files, fetched := d.fetched } h0
    have hproj : ({ purge_step n v { st with dl := d.files, fetched := d.fetched } with
        clientVersionWritten := true } : PkgState).outFiles
        = (purge_step n v { st with dl := d.files, fetched := d.fetched }).outFiles := rfl
    rw [hproj, hp]
    simp
  refine ⟨?_, ?_, ?_⟩
  · intro keep
    refine ⟨main_build_layout n v sf ce d.infos
      { purge_step n v { st with dl := d.files, fetched := d.fetched } with
        clientVersionWritten := true }, ?_, hpre, ?_⟩
    · simp only [create_package_main, hdl, _fill_client_version, if_true,
        Bool.not_true, Bool.false_eq_true, if_false]
    · rw [hpre]
      intro hmem
      have hsw := layoutFiles_startsWith n v sf d.infos ce _ hmem
      simp [startsWithPath, server_zip_filename_ne n v] at hsw
  · refine ⟨rmtree_root n (create_server_package n v (main_build_layout n v sf ce d.infos
        { purge_step n v { st with dl := d.files, fetched := d.fetched } with
          clientVersionWritten := true })), ?_, ?_⟩
    · simp only [create_package_main, hdl, _fill_client_version, if_true,
        Bool.not_false]
    · simp only [rmtree_root, create_server_package]
      rw [hpre]
      exact filter_not_under_append_zip n v _ (layoutFiles_startsWith n v sf d.infos ce)
  · refine ⟨create_server_package n v (main_build_layout n v sf ce d.infos
        { purge_step n v { st with dl := d.files, fetched := d.fetched } with
          clientVersionWritten := true }), ?_, ?_⟩
    · simp only [create_package_main, hdl, _fill_client_version, if_true,
        Bool.not_false, Bool.not_true, Bool.false_eq_true, if_false]
    · simp only [create_server_package]
      rw [hpre]

theorem main_flag_behaviour_witness :
    st0.outFiles = [] ∧
    download_usd_zip cHash cRemoteGood "ayon_usd" cSourcesGood
        { files := st0.dl, fetched := st0.fetched, infos := [] } =
      .ok { files := [("usd-24.03_linux_py39.zip", [7])],
            fetched := ["https://distribute.openpype.io/thirdparty/usd-24.03_linux_py39.zip"],
            infos := [mkZipInfo "ayon_usd" "linux" cInfoGood] } ∧
    (∃ s2, create_package_main cHash cRemoteGood "ayon_usd" "1.0.0" cSourcesGood
        [["api.py"]] true true false false st0 = .ok s2 ∧
      s2.outFiles = [[server_zip_filename "ayon_usd" "1.0.0"]]) := by
  have hdl : download_usd_zip cHash cRemoteGood "ayon_usd" cSourcesGood
      { files := st0.dl, fetched := st0.fetched, infos := [] } =
    .ok { files := [("usd-24.03_linux_py39.zip", [7])],
          fetched := ["https://distribute.openpype.io/thirdparty/usd-24.03_linux_py39.zip"],
          infos := [mkZipInfo "ayon_usd" "linux" cInfoGood] } := by rfl
  exact ⟨rfl, hdl, (main_flag_behaviour cHash cRemoteGood "ayon_usd" "1.0.0" cSourcesGood
    [["api.py"]] true st0 _ rfl hdl).2.1⟩

/-! ## Claim C10: missing client directory -/

/-- C10 counterexample: a concrete packaging run on an addon source
with no client directory (so client/{client dir} is missing as well)
aborts with the uncaught FileNotFoundError of _fill_client_version
instead of continuing to completion: main raises before zip_client_side
is ever reached. -/
theorem main_crashes_when_client_missing_cex :
    create_package_main cHash cRemoteGood "ayon_usd" "1.0.0" cSourcesGood [["api.py"]]
        false false false false st0 =
      .error ("FileNotFoundError: client version.py parent directory is missing",
        { st0 with
          dl := [("usd-24.03_linux_py39.zip", [7])],
          fetched :=
            ["https://distribute.openpype.io/thirdparty/usd-24.03_linux_py39.zip"] }) := by
  rfl

/-- C10 (amended): when the addon source has no client directory,
zip_client_side itself returns its state unchanged (no private
directory created, no client.zip written, no error raised); but a full
packaging run never reaches it: since the client directory is missing
its client/{client dir} subdirectory is missing too, so main aborts at
_fill_client_version with an uncaught FileNotFoundError, right after
the purge and before any output write. -/
theorem zip_client_side_skips_missing_client (hashAlg : String → List Nat → String)
    (remote : String → List Nat) (n v : String)
    (sources : List (String × List (String × PlatformInfo)))
    (sf : List (List String)) (skip keep : Bool) (st : PkgState) (d : DlState)
    (hdl : download_usd_zip hashAlg remote n sources
      { files := st.dl, fetched := st.fetched, infos := [] } = .ok d) :
    (∀ s : PkgState, zip_client_side n v false s = s) ∧
    create_package_main hashAlg remote n v sources sf false false skip keep st =
      .error ("FileNotFoundError: client version.py parent directory is missing",
        purge_step n v { st with dl := d.files, fetched := d.fetched }) := by
  constructor
  · intro s
    simp [zip_client_side]
  · simp only [create_package_main, hdl, _fill_client_version, Bool.false_eq_true, if_false]

theorem zip_client_side_skips_missing_client_witness :
    zip_client_side "ayon_usd" "1.0.0" false c2State = c2State ∧
    download_usd_zip cHash cRemoteGood "ayon_usd" cSourcesGood
        { files := st0.dl, fetched := st0.fetched, infos := [] } =
      .ok { files := [("usd-24.03_linux_py39.zip", [7])],
            fetched := ["https://distribute.openpype.io/thirdparty/usd-24.03_linux_py39.zip"],
            infos := [mkZipInfo "ayon_usd" "linux" cInfoGood] } ∧
    create_package_main cHash cRemoteGood "ayon_usd" "1.0.0" cSourcesGood [["api.py"]]
        false false true false st0 =
      .error ("FileNotFoundError: client version.py parent directory is missing",
        purge_step "ayon_usd" "1.0.0"
          { st0 with
            dl := [("usd-24.03_linux_py39.zip", [7])],
            fetched :=
              ["https://distribute.openpype.io/thirdparty/usd-24.03_linux_py39.zip"] }) := by
  have hdl : download_usd_zip cHash cRemoteGood "ayon_usd" cSourcesGood
      { files := st0.dl, fetched := st0.fetched, infos := [] } =
    .ok { files := [("usd-24.03_linux_py39.zip", [7])],
          fetched := ["https://distribute.openpype.io/thirdparty/usd-24.03_linux_py39.zip"],
          infos := [mkZipInfo "ayon_usd" "linux" cInfoGood] } := by rfl
  have h := zip_client_side_skips_missing_client cHash cRemoteGood "ayon_usd" "1.0.0"
    cSourcesGood [["api.py"]] true false st0 _ hdl
  exact ⟨h.1 c2State, hdl, h.2⟩

/-! ## Claim C1: correctness of the filtered tree walk -/

theorem queueMeasure_append (a b : List (List FsEntry × List String)) :
    queueMeasure (a ++ b) = queueMeasure a + queueMeasure b := by
  induction a with
  | nil => simp [queueMeasure]
  | cons h t ih =>
      cases h
      simp [queueMeasure, ih]
      omega

theorem FsEntry.size_pos (e : FsEntry) : 1 ≤ e.size := by
  cases e <;> simp [FsEntry.size]

theorem KeptAt.cons_of {fpats dpats : List NamePat} (e : FsEntry) {es : List FsEntry}
    {p : List String} (h : KeptAt fpats dpats es p) : KeptAt fpats dpats (e :: es) p := by
  cases h with
  | file hm hf => exact KeptAt.file (List.mem_cons_of_mem _ hm) hf
  | dir hm hd hk => exact KeptAt.dir (List.mem_cons_of_mem _ hm) hd hk

theorem keptPaths_sound (fpats dpats : List NamePat) (es : List FsEntry) (p : List String)
    (h : p ∈ keptPaths fpats dpats es) : KeptAt fpats dpats es p := by
  match es with
  | [] => simp [keptPaths] at h
  | .file n :: es2 =>
      simp only [keptPaths] at h
      rcases List.mem_append.mp h with h1 | h2
      · cases hm : _value_match_regexes n fpats with
        | true => rw [hm] at h1; simp at h1
        | false =>
            rw [hm] at h1
            simp at h1
            subst h1
            exact KeptAt.file (List.mem_cons_self _ _) hm
      · exact KeptAt.cons_of _ (keptPaths_sound fpats dpats es2 p h2)
  | .dir n cs :: es2 =>
      simp only [keptPaths] at h
      rcases List.mem_append.mp h with h1 | h2
      · cases hm : _value_match_regexes n dpats with
        | true => rw [hm] at h1; simp at h1
        | false =>
            rw [hm] at h1
            simp only [Bool.false_eq_true, if_false] at h1
            obtain ⟨q, hq, rfl⟩ := List.mem_map.mp h1
            exact KeptAt.dir (List.mem_cons_self _ _) hm (keptPaths_sound fpats dpats cs q hq)
      · exact KeptAt.cons_of _ (keptPaths_sound fpats dpats es2 p h2)
termination_by sizeEntries es
decreasing_by
  all_goals simp [sizeEntries, FsEntry.size]
  all_goals omega

theorem keptPaths_complete (fpats dpats : List NamePat) (es : List FsEntry) (p : List String)
    (h : KeptAt fpats dpats es p) : p ∈ keptPaths fpats dpats es := by
  match es with
  | [] =>
      cases h with
      | file hm hf => cases hm
      | dir hm hd hk => cases hm
  | e :: es2 =>
      cases h with
      | file hm hf =>
          rcases List.mem_cons.mp hm with he | he
          · subst he
            simp [keptPaths, hf]
          · have hrec := keptPaths_complete fpats dpats es2 _ (KeptAt.file he hf)
            cases e with
            | file m => simp only [keptPaths]; exact List.mem_append_right _ hrec
            | dir m cs2 => simp only [keptPaths]; exact List.mem_append_right _ hrec
      | dir hm hd hk =>
          rcases List.mem_cons.mp hm with he | he
          · subst he
            have hrec := keptPaths_complete fpats dpats _ _ hk
            simp only [keptPaths, hd, Bool.false_eq_true, if_false]
            exact List.mem_append_left _ (List.mem_map.mpr ⟨_, hrec, rfl⟩)
          · have hrec := keptPaths_complete fpats dpats es2 _ (KeptAt.dir he hd hk)
            cases e with
            | file m => simp only [keptPaths]; exact List.mem_append_right _ hrec
            | dir m cs2 => simp only [keptPaths]; exact List.mem_append_right _ hrec
termination_by sizeEntries es
decreasing_by
  all_goals subst_vars
  all_goals simp [sizeEntries, FsEntry.size]
  all_goals (first
    | omega
    | (have hsize := FsEntry.size_pos e; omega))

theorem KeptAt.head_mem {fpats dpats : List NamePat} {es : List FsEntry} {p : List String}
    (h : KeptAt fpats dpats es p) : ∃ n q, p = n :: q ∧ n ∈ entryNames es := by
  cases h with
  | file hm hf => exact ⟨_, [], rfl, List.mem_map.mpr ⟨_, hm, rfl⟩⟩
  | dir hm hd hk => exact ⟨_, _, rfl, List.mem_map.mpr ⟨_, hm, rfl⟩⟩

theorem keptPaths_head_mem_names (fpats dpats : List NamePat) (es : List FsEntry)
    (p : List String) (h : p ∈ keptPaths fpats dpats es) :
    ∃ n q, p = n :: q ∧ n ∈ entryNames es :=
  (keptPaths_sound fpats dpats es p h).head_mem

theorem keptPaths_nodup (fpats dpats : List NamePat) (es : List FsEntry)
    (hwf : wfEntries es = true) : (keptPaths fpats dpats es).Nodup := by
  match es with
  | [] => simp [keptPaths]
  | e :: es2 =>
      simp only [wfEntries, Bool.and_eq_true, Bool.not_eq_true'] at hwf
      obtain ⟨⟨hname, hwfe⟩, hwfes⟩ := hwf
      have hname2 : entryName e ∉ entryNames es2 := by
        intro hmem
        have hc : (entryNames es2).contains (entryName e) = true := List.elem_iff.mpr hmem
        rw [hc] at hname
        simp at hname
      have hrest : (keptPaths fpats dpats es2).Nodup := keptPaths_nodup fpats dpats es2 hwfes
      cases e with
      | file n =>
          simp only [keptPaths]
          cases hm : _value_match_regexes n fpats with
          | true => simpa [hm] using hrest
          | false =>
              simp only [hm, Bool.false_eq_true, if_false]
              refine List.Nodup.append ?_ hrest ?_
              · simp
              · intro x hx
                simp only [List.singleton_append, List.mem_cons, List.not_mem_nil,
                  or_false] at hx
                subst hx
                intro hmem
                obtain ⟨m, q, heq, hm2⟩ := keptPaths_head_mem_names fpats dpats es2 _ hmem
                cases heq
                exact hname2 hm2
      | dir n cs =>
          simp only [wfEntry] at hwfe
          simp only [keptPaths]
          cases hm : _value_match_regexes n dpats with
          | true => simpa [hm] using hrest
          | false =>
              simp only [hm, Bool.false_eq_true, if_false]
              refine List.Nodup.append ?_ hrest ?_
              · exact (keptPaths_nodup fpats dpats cs hwfe).map
                  (fun a b hab => by injection hab)
              · intro x hx
                obtain ⟨q, hq, rfl⟩ := List.mem_map.mp hx
                intro hmem
                obtain ⟨m, q2, heq, hm2⟩ := keptPaths_head_mem_names fpats dpats es2 _ hmem
                injection heq with h1 h2
                subst h1
                exact hname2 hm2
termination_by sizeEntries es
decreasing_by
  all_goals subst_vars
  all_goals simp [sizeEntries, FsEntry.size]
  all_goals (first
    | omega
    | (have hsize := FsEntry.size_pos e; omega))

theorem queueMeasure_keptSubdirs_le (dpats : List NamePat) (parents : List String)
    (entries : List FsEntry) :
    queueMeasure (keptSubdirs dpats parents entries) ≤ sizeEntries entries := by
  induction entries with
  | nil => simp [keptSubdirs, queueMeasure, sizeEntries]
  | cons e es ih =>
      cases e with
      | file n =>
          simp only [keptSubdirs, List.filterMap_cons, sizeEntries, FsEntry.size]
          simp only [keptSubdirs] at ih
          omega
      | dir n cs =>
          simp only [keptSubdirs, List.filterMap_cons, sizeEntries, FsEntry.size]
          simp only [keptSubdirs] at ih
          cases hm : _value_match_regexes n dpats with
          | true => simp only [if_true]; omega
          | false => simp only [Bool.false_eq_true, if_false, queueMeasure]; omega

theorem expandItem_head (fpats dpats : List NamePat) (srcPath : List String)
    (parents : List String) (entries : List FsEntry) :
    (expandItem fpats dpats srcPath (entries, parents)).Perm
      (keptFilePairs fpats srcPath parents entries ++
        (keptSubdirs dpats parents entries).flatMap (expandItem fpats dpats srcPath)) := by
  induction entries with
  | nil => simp [expandItem, keptPaths, keptFilePairs, keptSubdirs]
  | cons e es ih =>
      cases e with
      | file n =>
          cases hm : _value_match_regexes n fpats with
          | true =>
              simp only [expandItem, keptPaths, hm, keptFilePairs, keptSubdirs,
                List.filterMap_cons, if_true, List.nil_append] at ih ⊢
              exact ih
          | false =>
              simp only [expandItem, keptPaths, hm, keptFilePairs, keptSubdirs,
                List.filterMap_cons, Bool.false_eq_true, if_false, List.singleton_append,
                List.map_cons] at ih ⊢
              exact ih.cons _
      | dir n cs =>
          cases hm : _value_match_regexes n dpats with
          | true =>
              simp only [expandItem, keptPaths, hm, keptFilePairs, keptSubdirs,
                List.filterMap_cons, if_true, List.nil_append] at ih ⊢
              exact ih
          | false =>
              simp only [expandItem, keptPaths, hm, keptFilePairs, keptSubdirs,
                List.filterMap_cons, Bool.false_eq_true, if_false, List.flatMap_cons,
                List.map_append, List.map_map] at ih ⊢
              have hmap : (keptPaths fpats dpats cs).map
                    ((fun p => (srcPath ++ parents ++ p, parents ++ p)) ∘ (fun p => n :: p))
                  = (keptPaths fpats dpats cs).map
                    (fun p => (srcPath ++ (parents ++ [n]) ++ p, (parents ++ [n]) ++ p)) := by
                apply List.map_congr_left
                intro p _
                simp [List.append_assoc]
              rw [hmap]
              exact (ih.append_left _).trans (List.perm_append_comm_assoc _ _ _)

theorem findFilesLoop_perm (fpats dpats : List NamePat) (srcPath : List String)
    (queue : List (List FsEntry × List String)) :
    (findFilesLoop fpats dpats srcPath queue).Perm
      (queue.flatMap (expandItem fpats dpats srcPath)) := by
  match queue with
  | [] => simp [findFilesLoop]
  | (entries, parents) :: rest =>
      simp only [findFilesLoop, List.flatMap_cons]
      have hrec := findFilesLoop_perm fpats dpats srcPath
        (rest ++ keptSubdirs dpats parents entries)
      rw [List.flatMap_append] at hrec
      refine ((hrec.append_left (keptFilePairs fpats srcPath parents entries)).trans ?_)
      refine List.Perm.trans ?_
        ((expandItem_head fpats dpats srcPath parents entries).symm.append_right _)
      rw [List.append_assoc]
      exact (List.perm_append_comm).append_left _
termination_by queueMeasure queue
decreasing_by
  simp only [queueMeasure]
  have h1 := queueMeasure_keptSubdirs_le dpats parents entries
  have h2 := queueMeasure_append rest (keptSubdirs dpats parents entries)
  omega

/-- C1: on every well-formed tree (sibling names pairwise distinct, as
on a real filesystem), find_files_in_subdir returns exactly the set of
files whose own name matches no file-exclusion pattern and none of
whose ancestor directory names below the root matches a
directory-exclusion pattern (an excluded directory is never descended
into while its siblings still are, and patterns see one name component
at a time); each such file appears exactly once and is paired with its
root-relative path. -/
theorem find_files_in_subdir_correct (srcPath : List String) (fpats dpats : List NamePat)
    (tree : List FsEntry) (hwf : wfEntries tree = true) :
    (∀ p : List String,
      p ∈ (find_files_in_subdir srcPath fpats dpats tree).map Prod.snd ↔
        KeptAt fpats dpats tree p) ∧
    ((find_files_in_subdir srcPath fpats dpats tree).map Prod.snd).Nodup ∧
    (∀ pr ∈ find_files_in_subdir srcPath fpats dpats tree, pr.1 = srcPath ++ pr.2) := by
  have hff : find_files_in_subdir srcPath fpats dpats tree
      = findFilesLoop fpats dpats srcPath [(tree, [])] := rfl
  have hperm := findFilesLoop_perm fpats dpats srcPath [(tree, [])]
  have hexp : ([(tree, ([] : List String))].flatMap (expandItem fpats dpats srcPath))
      = (keptPaths fpats dpats tree).map (fun p => (srcPath ++ p, p)) := by
    simp [expandItem]
  rw [hexp] at hperm
  rw [← hff] at hperm
  have hsnd : ((find_files_in_subdir srcPath fpats dpats tree).map Prod.snd).Perm
      (keptPaths fpats dpats tree) := by
    have hm := hperm.map Prod.snd
    rw [List.map_map] at hm
    have hid : (keptPaths fpats dpats tree).map (Prod.snd ∘ fun p => (srcPath ++ p, p))
        = keptPaths fpats dpats tree := by
      have hcomp : (Prod.snd ∘ fun p : List String => (srcPath ++ p, p)) = fun p => p := by
        funext p
        rfl
      rw [hcomp]
      exact List.map_id _
    rw [hid] at hm
    exact hm
  refine ⟨?_, ?_, ?_⟩
  · intro p
    rw [hsnd.mem_iff]
    exact ⟨keptPaths_sound fpats dpats tree p, keptPaths_complete fpats dpats tree p⟩
  · exact hsnd.nodup_iff.mpr (keptPaths_nodup fpats dpats tree hwf)
  · intro pr hpr
    have hmem : pr ∈ (keptPaths fpats dpats tree).map (fun p => (srcPath ++ p, p)) :=
      hperm.mem_iff.mp hpr
    obtain ⟨q, _, rfl⟩ := List.mem_map.mp hmem
    rfl

theorem find_files_in_subdir_correct_witness :
    wfEntries c1Tree = true ∧
    ((find_files_in_subdir ["root"] c1FilePats c1DirPats c1Tree).map Prod.snd).Nodup ∧
    (["sub", "a.py"] ∈
        (find_files_in_subdir ["root"] c1FilePats c1DirPats c1Tree).map Prod.snd ↔
      KeptAt c1FilePats c1DirPats c1Tree ["sub", "a.py"]) := by
  have h := find_files_in_subdir_correct ["root"] c1FilePats c1DirPats c1Tree (by decide)
  exact ⟨by decide, h.2.1, h.1 ["sub", "a.py"]⟩
